import Mathlib

/-
Verification of the loan-market decision core: a shallow embedding of
`loan_market_simulation/loan.py` and `loan_market_simulation/borrower.py`.

Modelling conventions:
- Python floats are embedded as rationals (`ℚ`); the epsilon schedule, which
  uses `math.exp`, is analysed over the reals (`ℝ`).
- Python `int` fields (`income`, `credit_score`) are embedded as `ℤ`; Python
  floor division `//` is `Int.fdiv`.
- Mutation is explicit state passing; a Python statement that can raise
  (`list.remove` on an absent element) is embedded as an `Option` result,
  `none` meaning the exception propagates.
- Sources of randomness (`random.random`, `random.randrange`,
  `np.random.random`, `random.sample`) are oracle parameters: the draw, or the
  index stream, is an explicit argument.
- The neural network forward pass, the optimizer step, and `math.exp` inside
  `evaluate_loan` operate on floats in the source; they are oracle parameters
  (`net`, `train`, `expO`) so that the surrounding control flow and state
  updates are embedded exactly.
- Loan objects are compared by Python object identity in `list.remove`; each
  loan therefore carries a numeric `id` and the borrower loan list stores loan
  records removed by first matching `id`.
-/

/-- Last `n` elements of a list: the semantics of a `collections.deque` with
`maxlen = n` after appends, and of Python slicing `l[-n:]`. -/
def takeLast {α : Type} (n : ℕ) (l : List α) : List α :=
  l.drop (l.length - n)

/-- One stored transition, `Experience = namedtuple(state, action, reward,
next_state)` from borrower.py line 11; the tensors are embedded as rational
vectors and the action tensor as a natural number. -/
structure Experience where
  state : List ℚ
  action : ℕ
  reward : ℚ
  next_state : List ℚ
deriving DecidableEq, Repr

/-- ReplayMemory from borrower.py lines 18-29: a deque with `maxlen =
capacity`. -/
structure ReplayMemory where
  capacity : ℕ
  memory : List Experience
deriving DecidableEq, Repr

/-- `ReplayMemory.push` (borrower.py line 22): append, with the deque
discarding the oldest element when over capacity. -/
def ReplayMemory.push (m : ReplayMemory) (e : Experience) : ReplayMemory :=
  ⟨m.capacity, takeLast m.capacity (m.memory ++ [e])⟩

/-- Folding a sequence of pushes into a buffer. -/
def pushAll (m : ReplayMemory) (ts : List Experience) : ReplayMemory :=
  ts.foldl ReplayMemory.push m

/-- Selection of `k` elements at distinct positions, the model of
`random.sample`: the oracle `r` supplies the raw random draws, reduced mod the
current pool size; the chosen element is removed from the pool before the next
draw, so positions never repeat. -/
def sampleSelect (r : ℕ → ℕ) : ℕ → List Experience → List Experience
  | 0, _ => []
  | k + 1, pool =>
    let i := r (k + 1) % pool.length
    pool.getD i ⟨[], 0, 0, []⟩ :: sampleSelect r k (pool.eraseIdx i)

/-- `ReplayMemory.sample` (borrower.py lines 25-26): `random.sample(memory,
batch_size)` raises `ValueError` when the batch size exceeds the population,
embedded as `none`. -/
def ReplayMemory.sample (m : ReplayMemory) (r : ℕ → ℕ) (batch_size : ℕ) :
    Option (List Experience) :=
  if batch_size ≤ m.memory.length then some (sampleSelect r batch_size m.memory)
  else none

/-- Loan state, the mutable attributes of `Loan.__init__` (loan.py lines
4-14), plus a numeric `id` standing for Python object identity. -/
structure LoanState where
  id : ℕ
  lender : ℕ
  amount : ℚ
  interest_rate : ℚ
  term : ℕ
  balance : ℚ
  payments_made : ℕ
  missed_payments : ℕ
  is_active : Bool
  total_interest_paid : ℚ
deriving DecidableEq, Repr

/-- A freshly constructed loan (loan.py lines 4-14): balance starts at the
principal, counters at zero, active. -/
def mkLoan (id lender : ℕ) (amount interest_rate : ℚ) (term : ℕ) : LoanState :=
  ⟨id, lender, amount, interest_rate, term, amount, 0, 0, true, 0⟩

/-- `Loan.reset` (loan.py lines 16-21). -/
def LoanState.reset (l : LoanState) : LoanState :=
  { l with balance := l.amount, payments_made := 0, missed_payments := 0,
           is_active := true, total_interest_paid := 0 }

/-- The divisor of the amortization formula, `(1 + r)^term - 1` with
`r = interest_rate / 12` (loan.py line 25). -/
def monthlyPaymentDivisor (interest_rate : ℚ) (term : ℕ) : ℚ :=
  (1 + interest_rate / 12) ^ term - 1

/-- `Loan.monthly_payment` (loan.py lines 23-25) as a total rational function;
in Lean division by zero yields zero, while in Python a zero divisor raises
`ZeroDivisionError` — `monthlyPaymentChecked` below captures that failure. -/
def monthlyPayment (amount interest_rate : ℚ) (term : ℕ) : ℚ :=
  let r := interest_rate / 12
  (amount * r * (1 + r) ^ term) / ((1 + r) ^ term - 1)

/-- `Loan.monthly_payment` with the Python division-by-zero failure made
explicit: `none` exactly when the divisor is zero. -/
def monthlyPaymentChecked (amount interest_rate : ℚ) (term : ℕ) : Option ℚ :=
  if monthlyPaymentDivisor interest_rate term = 0 then none
  else some (monthlyPayment amount interest_rate term)

/-- The market-state record consumed by the engine: `economic_cycle` and
`market_liquidity`. -/
structure MarketState where
  economic_cycle : ℤ
  market_liquidity : ℚ
deriving DecidableEq, Repr

/-- A loan offer triple `(interest_rate, amount, term)` as built in
`evaluate_loan` (borrower.py line 158). -/
structure LoanOffer where
  interest_rate : ℚ
  amount : ℚ
  term : ℕ
deriving DecidableEq, Repr

/-- Borrower (decision engine) state, the attributes of `Borrower.__init__`
(borrower.py lines 59-101). The policy weights, target weights and optimizer
state are abstract type parameters `W` and `O`, since gradient arithmetic on
floats is outside the embedding; every claim below is about the surrounding
control flow and is proved for all `W`, `O`. Constructor constants that are
never mutated (`batch_size = 128`, `gamma`, `eps_start = 0.9`,
`eps_end = 0.05`, `eps_decay = 50000`, capacity `50000`) are inlined as
literals at their use sites. -/
structure Borrower (W O : Type) where
  id : ℕ
  credit_score : ℤ
  income : ℤ
  debt : ℚ
  loans : List LoanState
  risk_tolerance : ℚ
  financial_literacy : ℚ
  annual_income : ℚ
  loan_history : List ℕ
  payment_history : List ℕ
  policyWeights : W
  targetWeights : W
  optimState : O
  memory : ReplayMemory
  steps_done : ℕ
  avg_reward : ℚ
  reward_history : List ℚ
deriving DecidableEq

/-- `Borrower.get_payment_success_rate` (borrower.py lines 103-106): mean of
the last 100 outcomes, `1.0` when there is no history. -/
def paymentSuccessRate (h : List ℕ) : ℚ :=
  if h = [] then 1
  else ((takeLast 100 h).sum : ℚ) / ((takeLast 100 h).length : ℚ)

/-- `Borrower.debt_to_income_ratio` (borrower.py lines 122-124): monthly
payments over monthly income, `0` when income is not positive. -/
def debtToIncome (income : ℤ) (loans : List LoanState) : ℚ :=
  if 0 < income then
    (loans.map (fun l => monthlyPayment l.amount l.interest_rate l.term)).sum /
      ((income : ℚ) / 12)
  else 0

/-- `Borrower.state_to_tensor` (borrower.py lines 134-145): the normalized
8-vector. -/
def stateToTensor {W O : Type} (b : Borrower W O) (state : MarketState)
    (offer : LoanOffer) : List ℚ :=
  [ (b.credit_score : ℚ) / 850,
    debtToIncome b.income b.loans,
    paymentSuccessRate b.payment_history,
    offer.interest_rate,
    offer.amount / 100000,
    (offer.term : ℚ) / 36,
    (state.economic_cycle : ℚ),
    state.market_liquidity ]

/-- `Borrower.improve_credit_score` (borrower.py lines 225-227). -/
def improveCreditScore (credit_score points : ℤ) : ℤ :=
  max 300 (min 850 (credit_score + points))

/-- Removal of the first loan with the given id; `none` when absent, which in
Python is a `ValueError` from `list.remove`. -/
def removeLoanById : List LoanState → ℕ → Option (List LoanState)
  | [], _ => none
  | l :: ls, i =>
    if l.id = i then some ls
    else (removeLoanById ls i).map (fun ls2 => l :: ls2)

/-- `Borrower.make_payment` (borrower.py lines 207-219). Returns the payment
outcome with the updated borrower and loan; `none` embeds the uncaught
`ValueError` raised by `self.loans.remove(loan)` when the loan closes while
absent from the list. Note the affordability test uses Python integer floor
division `self.income // 12`. -/
def Borrower.makePayment {W O : Type} (b : Borrower W O) (l : LoanState) :
    Option (Bool × Borrower W O × LoanState) :=
  let payment := monthlyPayment l.amount l.interest_rate l.term
  if payment ≤ ((Int.fdiv b.income 12 : ℤ) : ℚ) then
    let b1 := { b with annual_income := b.annual_income - payment }
    let l1 := { l with balance := l.balance - payment }
    if l1.balance ≤ 0 then
      match removeLoanById b1.loans l.id with
      | none => none
      | some ls =>
        some (true,
          { b1 with loans := ls,
                    credit_score := improveCreditScore b1.credit_score 10,
                    payment_history := b1.payment_history ++ [1] }, l1)
    else
      some (true, { b1 with payment_history := b1.payment_history ++ [1] }, l1)
  else
    some (false, { b with payment_history := b.payment_history ++ [0] }, l)

/-- `Loan.make_payment` (loan.py lines 27-41): the full payment flow, which
calls back into the borrower and then subtracts the payment from the balance
again, accrues interest on the post-payment balance, and deactivates the loan
when the balance reaches zero or below. -/
def LoanState.makePayment {W O : Type} (b : Borrower W O) (l : LoanState) :
    Option (Bool × Borrower W O × LoanState) :=
  if l.is_active then
    let payment := monthlyPayment l.amount l.interest_rate l.term
    match b.makePayment l with
    | none => none
    | some (true, b1, l1) =>
      let bal := l1.balance - payment
      some (true, b1,
        { l1 with balance := bal,
                  payments_made := l1.payments_made + 1,
                  total_interest_paid :=
                    l1.total_interest_paid + bal * (l.interest_rate / 12),
                  is_active := if bal ≤ 0 then false else l1.is_active })
    | some (false, b1, l1) =>
      some (false, b1, { l1 with missed_payments := l1.missed_payments + 1 })
  else some (false, b, l)

/-- `Borrower.recover_loan` (borrower.py lines 108-115): best-effort removal
(the `ValueError` is caught and ignored), debt reduced by half the balance and
floored at zero, a default recorded. -/
def Borrower.recoverLoan {W O : Type} (b : Borrower W O) (l : LoanState) :
    Borrower W O :=
  { b with loans := (removeLoanById b.loans l.id).getD b.loans,
           debt := max 0 (b.debt - l.balance * (1 / 2)),
           loan_history := b.loan_history ++ [0] }

/-- `Borrower.calculate_affordability` (borrower.py lines 185-196). -/
def calculateAffordability {W O : Type} (b : Borrower W O) (l : LoanState) : ℚ :=
  let mp := monthlyPayment l.amount l.interest_rate l.term
  let current_payments :=
    (b.loans.map (fun x => monthlyPayment x.amount x.interest_rate x.term)).sum
  let monthly_income := (b.income : ℚ) / 12
  let disposable_income := monthly_income - current_payments - b.debt / 12
  if mp ≤ 0 then 0 else min 1 (max 0 (disposable_income / mp))

/-- The epsilon schedule of `evaluate_loan` (borrower.py lines 153-154) with
the constants of `__init__` (borrower.py lines 94-96):
`eps_end + (eps_start - eps_end) * exp(-steps_done / eps_decay)`. -/
noncomputable def epsSchedule (steps_done : ℝ) : ℝ :=
  0.05 + (0.9 - 0.05) * Real.exp (-steps_done / 50000)

/-- `Borrower.evaluate_loan` (borrower.py lines 147-183). Oracles: `net` is
the policy-network forward pass on the held weights, `expO` the float
`math.exp`, `u` the `random.random()` draw, `randAct` the `random.randrange`
draw, `ru` and `rl` the two `np.random.random()` draws of the veto. A missing
loan offer is rejected before any of them is consulted. Ties in the network
output select action 0, as `torch.max` returns the first maximal index. -/
def Borrower.evaluateLoan {W O : Type} (net : W → List ℚ → List ℚ)
    (expO : ℚ → ℚ) (u : ℚ) (randAct : ℕ) (ru rl : ℚ)
    (b : Borrower W O) (loan : Option LoanState) (market : MarketState) :
    Bool × Borrower W O :=
  match loan with
  | none => (false, b)
  | some l =>
    let eps_threshold :=
      1 / 20 + (9 / 10 - 1 / 20) * expO (-(b.steps_done : ℚ) / 50000)
    let b1 := { b with steps_done := b.steps_done + 1 }
    let offer : LoanOffer := ⟨l.interest_rate, l.amount, l.term⟩
    let st := stateToTensor b market offer
    let action : ℕ :=
      if eps_threshold < u then
        let out := net b.policyWeights st
        if out.getD 0 0 < out.getD 1 0 then 1 else 0
      else randAct % 2
    let decision := action = 1
    let final :=
      if decision then
        let affordability := calculateAffordability b l
        let risk_factor := ru * b.risk_tolerance
        let literacy_factor := rl * b.financial_literacy
        let payment_history_factor := paymentSuccessRate b.payment_history
        decide (affordability > 7 / 10 ∨
          (affordability > 1 / 2 ∧ risk_factor > 1 / 2 ∧
           literacy_factor > 1 / 2 ∧ payment_history_factor > 7 / 10))
      else false
    (final, b1)

/-- `Borrower.update_state` (borrower.py lines 229-264). The reward window is
a deque with `maxlen = 100`; the running average is recomputed after the
append; the transition is pushed; and only when the buffer has reached
`batch_size = 128` does the training step run, modelled by the oracle `train`
acting on the sampled batch, the policy weights and the optimizer state. -/
def Borrower.updateState {W O : Type}
    (train : List Experience → W → O → W × O) (rng : ℕ → ℕ)
    (b : Borrower W O) (market : MarketState) (action : ℕ) (reward : ℚ)
    (next_state : MarketState) (loan_offer : LoanOffer) : Borrower W O :=
  let rh := takeLast 100 (b.reward_history ++ [reward])
  let avg := rh.sum / (rh.length : ℚ)
  let mem := b.memory.push
    ⟨stateToTensor b market loan_offer, action, reward,
     stateToTensor b next_state loan_offer⟩
  let b1 := { b with reward_history := rh, avg_reward := avg, memory := mem }
  if mem.memory.length < 128 then b1
  else
    let experiences := sampleSelect rng 128 mem.memory
    let stepped := train experiences b1.policyWeights b1.optimState
    { b1 with policyWeights := stepped.1, optimState := stepped.2 }

/-- `Borrower.reset` (borrower.py lines 266-272): clears loans, debt, both
histories and the reward statistics; touches nothing else. -/
def Borrower.reset {W O : Type} (b : Borrower W O) : Borrower W O :=
  { b with loans := [], debt := 0, loan_history := [], payment_history := [],
           reward_history := [], avg_reward := 0 }

/-- The loan lifecycle operations of the invariant claim that flow through the
loan object itself: the full payment flow, the loan reset, and default
recovery. -/
inductive PayOp where
  | loanPay
  | loanReset
  | recover
deriving DecidableEq, Repr

/-- One lifecycle operation applied to a borrower-loan pair; `none` propagates
an exception from the payment flow. -/
def stepOp {W O : Type} (op : PayOp) (s : Borrower W O × LoanState) :
    Option (Borrower W O × LoanState) :=
  match op with
  | PayOp.loanPay => (LoanState.makePayment s.1 s.2).map (fun r => (r.2.1, r.2.2))
  | PayOp.loanReset => some (s.1, s.2.reset)
  | PayOp.recover => some (s.1.recoverLoan s.2, s.2)

/-- Running a sequence of lifecycle operations. -/
def runOps {W O : Type} : List PayOp → Borrower W O × LoanState →
    Option (Borrower W O × LoanState)
  | [], s => some s
  | op :: ops, s => (stepOp op s).bind (runOps ops)

/-- The activity invariant of the claim: the loan is inactive exactly when the
balance has reached zero or below. -/
def loanInv (l : LoanState) : Prop := l.is_active = false ↔ l.balance ≤ 0

/-- A concrete loan: principal 100, annual rate 12 (so the monthly rate is 1),
term one month; its monthly payment is 200. -/
def loanA : LoanState := mkLoan 0 0 100 12 1

/-- A concrete borrower holding `loanA`, with income 2400 (monthly 200). -/
def borrowerA : Borrower Unit Unit :=
  ⟨0, 600, 2400, 0, [loanA], 1 / 2, 1 / 2, 2400, [], [], (), (), (),
   ⟨50000, []⟩, 0, 0, []⟩

/-- A concrete loan with monthly payment 21/20 = 1.05. -/
def loanB : LoanState := mkLoan 1 0 (21 / 40) 12 1

/-- A concrete borrower with income 13: `13 / 12 = 1.0833... ≥ 1.05` but
Python floor division gives `13 // 12 = 1 < 1.05`. -/
def borrowerB : Borrower Unit Unit :=
  ⟨0, 600, 13, 0, [loanB], 1 / 2, 1 / 2, 13, [], [], (), (), (),
   ⟨50000, []⟩, 0, 0, []⟩

/-- A concrete borrower holding `loanA`, with income 4800 (monthly 400, so a
payment of 200 is affordable). -/
def borrowerC : Borrower Unit Unit :=
  ⟨0, 600, 4800, 0, [loanA], 1 / 2, 1 / 2, 4800, [], [], (), (), (),
   ⟨50000, []⟩, 0, 0, []⟩

/-- A concrete freshly initialized engine: no loans, empty histories, empty
buffer of capacity 50000. -/
def borrowerD : Borrower Unit Unit :=
  ⟨0, 600, 55000, 0, [], 1 / 2, 1 / 2, 55000, [], [], (), (), (),
   ⟨50000, []⟩, 0, 0, []⟩

/-- C8: For every engine state and every market state, presenting a null loan
offer to `evaluate_loan` returns reject (`false`) immediately, without
evaluating the policy network (the result does not depend on `net`) and
without incrementing `steps_done` or changing any other engine state. -/
theorem evaluate_loan_null_offer_rejects :
    ∀ (W O : Type) (net : W → List ℚ → List ℚ) (expO : ℚ → ℚ) (u : ℚ)
      (randAct : ℕ) (ru rl : ℚ) (b : Borrower W O) (market : MarketState),
      Borrower.evaluateLoan net expO u randAct ru rl b none market = (false, b) := by
  intro W O net expO u randAct ru rl b market
  rfl

/-- C9: `reset` clears the loan set, debt, loan and payment histories, and the
reward statistics (window and running average), and changes nothing else: the
policy weights, target weights, optimizer state, buffer, counters and fixed
attributes are untouched; moreover no engine operation ever decreases
`steps_done`, so it is non-decreasing across the engine lifetime. -/
theorem reset_clears_only_histories :
    ∀ (W O : Type) (b : Borrower W O),
      b.reset.loans = [] ∧ b.reset.debt = 0 ∧ b.reset.loan_history = [] ∧
      b.reset.payment_history = [] ∧ b.reset.reward_history = [] ∧
      b.reset.avg_reward = 0 ∧
      b.reset.policyWeights = b.policyWeights ∧
      b.reset.targetWeights = b.targetWeights ∧
      b.reset.optimState = b.optimState ∧
      b.reset.steps_done = b.steps_done ∧
      b.reset.memory = b.memory ∧
      b.reset.credit_score = b.credit_score ∧
      b.reset.income = b.income ∧
      b.reset.risk_tolerance = b.risk_tolerance ∧
      b.reset.financial_literacy = b.financial_literacy ∧
      b.reset.annual_income = b.annual_income ∧
      b.reset.id = b.id ∧
      (∀ (net : W → List ℚ → List ℚ) (expO : ℚ → ℚ) (u : ℚ) (randAct : ℕ)
          (ru rl : ℚ) (lo : Option LoanState) (market : MarketState),
        b.steps_done ≤ (Borrower.evaluateLoan net expO u randAct ru rl b lo market).2.steps_done) ∧
      (∀ (train : List Experience → W → O → W × O) (rng : ℕ → ℕ)
          (market : MarketState) (action : ℕ) (reward : ℚ)
          (next_state : MarketState) (offer : LoanOffer),
        (Borrower.updateState train rng b market action reward next_state offer).steps_done
          = b.steps_done) := by
  intro W O b
  refine ⟨rfl, rfl, rfl, rfl, rfl, rfl, rfl, rfl, rfl, rfl, rfl, rfl, rfl, rfl,
    rfl, rfl, rfl, ?_, ?_⟩
  · intro net expO u randAct ru rl lo market
    cases lo with
    | none => exact le_rfl
    | some l => exact Nat.le_succ _
  · intro train rng market action reward next_state offer
    unfold Borrower.updateState
    dsimp only
    split <;> rfl

/-- C10: the amortization divisor `(1 + r)^term - 1` with `r = rate / 12` is
nonzero whenever the interest rate is positive and the term is at least one,
so the monthly payment is defined there; with a zero interest rate the divisor
is zero and the computation fails with a division by zero. -/
theorem monthly_payment_divisor_cases :
    ∀ (amount interest_rate : ℚ) (term : ℕ),
      (0 < interest_rate → 1 ≤ term →
        monthlyPaymentDivisor interest_rate term ≠ 0 ∧
        (monthlyPaymentChecked amount interest_rate term).isSome = true) ∧
      (interest_rate = 0 →
        monthlyPaymentDivisor interest_rate term = 0 ∧
        monthlyPaymentChecked amount interest_rate term = none) := by
  intro amount interest_rate term
  constructor
  · intro hrate hterm
    have hr : 0 < interest_rate / 12 := by positivity
    have hb := one_add_mul_le_pow (by linarith : (-2 : ℚ) ≤ interest_rate / 12) term
    have ht : (1 : ℚ) ≤ (term : ℚ) := by exact_mod_cast hterm
    have htr : interest_rate / 12 ≤ (term : ℚ) * (interest_rate / 12) := by
      nlinarith
    have hpos : 0 < monthlyPaymentDivisor interest_rate term := by
      unfold monthlyPaymentDivisor
      nlinarith
    refine ⟨ne_of_gt hpos, ?_⟩
    simp [monthlyPaymentChecked, ne_of_gt hpos]
  · intro hzero
    subst hzero
    have hdiv : monthlyPaymentDivisor 0 term = 0 := by
      simp [monthlyPaymentDivisor]
    exact ⟨hdiv, by simp [monthlyPaymentChecked, hdiv]⟩

/-- Witness for C10 at concrete inputs: amount 10000, rate 1/10, term 36 has a
nonzero divisor and a defined payment; rate 0, term 24 has a zero divisor and
the computation fails. -/
theorem monthly_payment_divisor_cases_witness :
    (monthlyPaymentDivisor (1 / 10) 36 ≠ 0 ∧
      (monthlyPaymentChecked 10000 (1 / 10) 36).isSome = true) ∧
    (monthlyPaymentDivisor 0 24 = 0 ∧ monthlyPaymentChecked 10000 0 24 = none) :=
  ⟨(monthly_payment_divisor_cases 10000 (1 / 10) 36).1 (by norm_num) (by norm_num),
   (monthly_payment_divisor_cases 10000 0 24).2 rfl⟩

/-- C5: the epsilon schedule `eps(s) = 0.05 + (0.9 - 0.05) * exp(-s / 50000)`
equals 0.9 at 0, is strictly decreasing, stays inside `[0.05, 0.9]` for all
nonnegative arguments, and tends to 0.05 at infinity. -/
theorem epsilon_schedule_spec :
    epsSchedule 0 = 0.9 ∧ StrictAnti epsSchedule ∧
    (∀ s : ℝ, 0 ≤ s → epsSchedule s ∈ Set.Icc (0.05 : ℝ) 0.9) ∧
    Filter.Tendsto epsSchedule Filter.atTop (nhds 0.05) := by
  refine ⟨?_, ?_, ?_, ?_⟩
  · norm_num [epsSchedule]
  · intro a b hab
    have h := Real.exp_lt_exp.mpr (show -b / 50000 < -a / 50000 by linarith)
    simp only [epsSchedule]
    nlinarith [h]
  · intro s hs
    have h1 := Real.exp_pos (-s / 50000)
    have h2 : Real.exp (-s / 50000) ≤ Real.exp 0 :=
      Real.exp_le_exp.mpr (by linarith)
    rw [Real.exp_zero] at h2
    constructor
    · simp only [epsSchedule]; nlinarith
    · simp only [epsSchedule]; nlinarith
  · have h1 : Filter.Tendsto (fun s : ℝ => -s / 50000) Filter.atTop Filter.atBot := by
      apply Filter.Tendsto.atBot_div_const (by norm_num : (0 : ℝ) < 50000)
      exact Filter.tendsto_neg_atTop_atBot
    have h2 : Filter.Tendsto (fun s : ℝ => Real.exp (-s / 50000))
        Filter.atTop (nhds 0) := Real.tendsto_exp_atBot.comp h1
    have h3 := Filter.Tendsto.const_add (0.05 : ℝ)
      (Filter.Tendsto.const_mul ((0.9 : ℝ) - 0.05) h2)
    simp only [mul_zero, add_zero] at h3
    exact h3

/-- Witness for C5: the schedule evaluated at 0 is 0.9 and lies in the stated
interval, and the value at 1 is strictly below the value at 0. -/
theorem epsilon_schedule_spec_witness :
    epsSchedule 0 = 0.9 ∧ epsSchedule 0 ∈ Set.Icc (0.05 : ℝ) 0.9 ∧
    epsSchedule 1 < epsSchedule 0 :=
  ⟨epsilon_schedule_spec.1,
   epsilon_schedule_spec.2.2.1 0 le_rfl,
   epsilon_schedule_spec.2.1 (by norm_num : (0 : ℝ) < 1)⟩

theorem takeLast_push {α : Type} (n : ℕ) (l : List α) (e : α) :
    takeLast n (takeLast n l ++ [e]) = takeLast n (l ++ [e]) := by
  unfold takeLast
  rcases le_or_lt l.length n with h | h
  · rw [Nat.sub_eq_zero_of_le h, List.drop_zero]
  · rcases Nat.eq_zero_or_pos n with hn | hn
    · subst hn
      simp [List.drop_of_length_le, List.length_append]
    · have hlen : (l.drop (l.length - n)).length = n := by
        rw [List.length_drop]; omega
      rw [List.length_append, List.length_append, hlen]
      have h1 : (n + [e].length - n) = 1 := by simp
      rw [h1]
      have h2 : l.length + [e].length - n = (l.length - n) + 1 := by simp; omega
      rw [h2]
      rw [List.drop_append_of_le_length (by omega : 1 ≤ (l.drop (l.length - n)).length),
          List.drop_append_of_le_length (by omega : l.length - n + 1 ≤ l.length)]
      rw [List.drop_drop]

theorem pushAll_memory (C : ℕ) :
    ∀ (ts mem : List Experience),
      pushAll ⟨C, takeLast C mem⟩ ts = ⟨C, takeLast C (mem ++ ts)⟩ := by
  intro ts
  induction ts with
  | nil => intro mem; simp [pushAll]
  | cons t ts ih =>
    intro mem
    show pushAll (ReplayMemory.push ⟨C, takeLast C mem⟩ t) ts = _
    rw [show ReplayMemory.push ⟨C, takeLast C mem⟩ t = ⟨C, takeLast C (mem ++ [t])⟩ from
      congrArg _ (takeLast_push C mem t)]
    rw [ih (mem ++ [t])]
    simp

theorem pushAll_empty_memory (C : ℕ) (ts : List Experience) :
    pushAll ⟨C, []⟩ ts = ⟨C, takeLast C ts⟩ := by
  have h : takeLast C ([] : List Experience) = [] := by simp [takeLast]
  have h2 := pushAll_memory C ts []
  rw [h] at h2
  simpa using h2

/-- C6: for every capacity `C ≥ 1`, pushing `C + 1` transitions into an empty
buffer of capacity `C` leaves exactly the last `C` pushes in order — the
first-pushed transition is evicted (strict FIFO by insertion order, hence
absent whenever it differs from the later pushes) — and the length never
exceeds `C` after any sequence of pushes. -/
theorem replay_fifo_eviction :
    ∀ (C : ℕ), 1 ≤ C → ∀ (e0 : Experience) (es : List Experience), es.length = C →
      (pushAll ⟨C, []⟩ (e0 :: es)).memory = es ∧
      (pushAll ⟨C, []⟩ (e0 :: es)).memory.length = C ∧
      (e0 ∉ es → e0 ∉ (pushAll ⟨C, []⟩ (e0 :: es)).memory) ∧
      (∀ ts : List Experience, (pushAll ⟨C, []⟩ ts).memory.length ≤ C) := by
  intro C hC e0 es hlen
  have hmem : (pushAll ⟨C, []⟩ (e0 :: es)).memory = es := by
    rw [pushAll_empty_memory]
    show takeLast C (e0 :: es) = es
    unfold takeLast
    rw [List.length_cons, hlen]
    rw [show C + 1 - C = 1 by omega]
    rfl
  refine ⟨hmem, by rw [hmem, hlen], fun h => by rw [hmem]; exact h, ?_⟩
  intro ts
  rw [pushAll_empty_memory]
  show (takeLast C ts).length ≤ C
  unfold takeLast
  rw [List.length_drop]
  omega

/-- Witness for C6: capacity 1, two distinct pushes; the buffer retains only
the second. -/
theorem replay_fifo_eviction_witness :
    (pushAll ⟨1, []⟩ [⟨[], 0, 0, []⟩, ⟨[], 1, 0, []⟩]).memory = [⟨[], 1, 0, []⟩] ∧
    (pushAll ⟨1, []⟩ [⟨[], 0, 0, []⟩, ⟨[], 1, 0, []⟩]).memory.length = 1 :=
  ⟨(replay_fifo_eviction 1 (by decide) ⟨[], 0, 0, []⟩ [⟨[], 1, 0, []⟩] (by decide)).1,
   (replay_fifo_eviction 1 (by decide) ⟨[], 0, 0, []⟩ [⟨[], 1, 0, []⟩] (by decide)).2.1⟩

theorem getD_cons_eraseIdx_perm {α : Type} (d : α) :
    ∀ (l : List α) (i : ℕ), i < l.length →
      List.Perm (l.getD i d :: l.eraseIdx i) l := by
  intro l
  induction l with
  | nil => intro i hi; simp at hi
  | cons x xs ih =>
    intro i hi
    cases i with
    | zero => simp
    | succ j =>
      have hj : j < xs.length := by simpa using hi
      have h1 : (x :: xs).getD (j + 1) d = xs.getD j d := by simp
      have h2 : (x :: xs).eraseIdx (j + 1) = x :: xs.eraseIdx j := by simp
      rw [h1, h2]
      exact (List.Perm.swap x (xs.getD j d) (xs.eraseIdx j)).trans ((ih j hj).cons x)

theorem sampleSelect_spec (r : ℕ → ℕ) :
    ∀ (k : ℕ) (pool : List Experience), k ≤ pool.length →
      (sampleSelect r k pool).length = k ∧
      (sampleSelect r k pool).Subperm pool := by
  intro k
  induction k with
  | zero => intro pool _; exact ⟨rfl, List.nil_subperm⟩
  | succ k ih =>
    intro pool hk
    have hpos : 0 < pool.length := by omega
    have hi : r (k + 1) % pool.length < pool.length := Nat.mod_lt _ hpos
    have herase : (pool.eraseIdx (r (k + 1) % pool.length)).length = pool.length - 1 := by
      rw [List.length_eraseIdx]
      simp [hi]
    have hk2 : k ≤ (pool.eraseIdx (r (k + 1) % pool.length)).length := by omega
    obtain ⟨ihlen, ihsub⟩ := ih _ hk2
    constructor
    · show (_ :: _).length = k + 1
      simp [sampleSelect, ihlen]
    · show (_ :: _).Subperm pool
      have hperm := getD_cons_eraseIdx_perm (⟨[], 0, 0, []⟩ : Experience) pool
        (r (k + 1) % pool.length) hi
      have hcons : (pool.getD (r (k + 1) % pool.length) ⟨[], 0, 0, []⟩ ::
          sampleSelect r k (pool.eraseIdx (r (k + 1) % pool.length))).Subperm
          (pool.getD (r (k + 1) % pool.length) ⟨[], 0, 0, []⟩ ::
            pool.eraseIdx (r (k + 1) % pool.length)) :=
        (List.subperm_cons _).mpr ihsub
      exact hcons.trans hperm.subperm

/-- C7: `sample(n)` fails (the `ValueError` of `random.sample`, embedded as
`none`) whenever `n` exceeds the current length, and otherwise succeeds with a
list of exactly `n` transitions drawn without replacement from the current
contents: the result is a permutation of a sublist of the buffer, so every
returned transition occupies a distinct buffer position and belongs to the
contents. -/
theorem replay_sample_spec :
    ∀ (m : ReplayMemory) (r : ℕ → ℕ) (n : ℕ),
      (m.memory.length < n → m.sample r n = none) ∧
      (n ≤ m.memory.length →
        ∃ l, m.sample r n = some l ∧ l.length = n ∧ l.Subperm m.memory ∧
          ∀ x ∈ l, x ∈ m.memory) := by
  intro m r n
  constructor
  · intro h
    unfold ReplayMemory.sample
    rw [if_neg (by omega)]
  · intro h
    refine ⟨sampleSelect r n m.memory, ?_, (sampleSelect_spec r n m.memory h).1,
      (sampleSelect_spec r n m.memory h).2, ?_⟩
    · unfold ReplayMemory.sample
      rw [if_pos h]
    · intro x hx
      exact (sampleSelect_spec r n m.memory h).2.subset hx

/-- Witness for C7: a buffer with two transitions rejects a request for three
and serves a request for one. -/
theorem replay_sample_spec_witness :
    ReplayMemory.sample ⟨50000, [⟨[], 0, 0, []⟩, ⟨[], 1, 0, []⟩]⟩ (fun n => n) 3 = none ∧
    ∃ l, ReplayMemory.sample ⟨50000, [⟨[], 0, 0, []⟩, ⟨[], 1, 0, []⟩]⟩ (fun n => n) 1 = some l ∧
      l.length = 1 ∧ l.Subperm [⟨[], 0, 0, []⟩, ⟨[], 1, 0, []⟩] ∧
      ∀ x ∈ l, x ∈ [⟨[], 0, 0, []⟩, ⟨[], 1, 0, []⟩] :=
  ⟨(replay_sample_spec ⟨50000, [⟨[], 0, 0, []⟩, ⟨[], 1, 0, []⟩]⟩ (fun n => n) 3).1 (by decide),
   (replay_sample_spec ⟨50000, [⟨[], 0, 0, []⟩, ⟨[], 1, 0, []⟩]⟩ (fun n => n) 1).2 (by decide)⟩

/-- C4: when, after the update call pushes its one new transition, the buffer
holds fewer than `batch_size = 128` transitions, `update_state` performs no
training step: for every training oracle the policy weights, target weights,
optimizer state and every other field are unchanged, and the only effects are
the bounded append to the reward window, the recomputed running average, and
the pushed transition. -/
theorem update_state_below_batch_noop :
    ∀ (W O : Type) (train : List Experience → W → O → W × O) (rng : ℕ → ℕ)
      (b : Borrower W O) (market : MarketState) (action : ℕ) (reward : ℚ)
      (next_state : MarketState) (offer : LoanOffer),
      (b.memory.push ⟨stateToTensor b market offer, action, reward,
          stateToTensor b next_state offer⟩).memory.length < 128 →
      Borrower.updateState train rng b market action reward next_state offer =
        { b with
          reward_history := takeLast 100 (b.reward_history ++ [reward]),
          avg_reward := (takeLast 100 (b.reward_history ++ [reward])).sum /
            ((takeLast 100 (b.reward_history ++ [reward])).length : ℚ),
          memory := b.memory.push ⟨stateToTensor b market offer, action, reward,
            stateToTensor b next_state offer⟩ } := by
  intro W O train rng b market action reward next_state offer h
  unfold Borrower.updateState
  dsimp only
  rw [if_pos h]

/-- Witness for C4: a fresh engine with an empty buffer; one update appends
the reward, recomputes the average, pushes the transition and nothing else. -/
theorem update_state_below_batch_noop_witness :
    Borrower.updateState (fun _ w o => (w, o)) (fun n => n) borrowerD ⟨0, 1⟩ 1 0 ⟨0, 1⟩
        ⟨1 / 10, 10000, 36⟩ =
      { borrowerD with
        reward_history := takeLast 100 (borrowerD.reward_history ++ [0]),
        avg_reward := (takeLast 100 (borrowerD.reward_history ++ [0])).sum /
          ((takeLast 100 (borrowerD.reward_history ++ [0])).length : ℚ),
        memory := borrowerD.memory.push ⟨stateToTensor borrowerD ⟨0, 1⟩ ⟨1 / 10, 10000, 36⟩,
          1, 0, stateToTensor borrowerD ⟨0, 1⟩ ⟨1 / 10, 10000, 36⟩⟩ } :=
  update_state_below_batch_noop Unit Unit (fun _ w o => (w, o)) (fun n => n) borrowerD
    ⟨0, 1⟩ 1 0 ⟨0, 1⟩ ⟨1 / 10, 10000, 36⟩ (by decide)

theorem makePayment_cases {W O : Type} (b : Borrower W O) (l : LoanState)
    (res : Bool) (b1 : Borrower W O) (l1 : LoanState)
    (h : b.makePayment l = some (res, b1, l1)) :
    (res = true ∧
      monthlyPayment l.amount l.interest_rate l.term ≤ ((Int.fdiv b.income 12 : ℤ) : ℚ) ∧
      l1 = { l with balance :=
        l.balance - monthlyPayment l.amount l.interest_rate l.term }) ∨
    (res = false ∧
      ¬ monthlyPayment l.amount l.interest_rate l.term ≤ ((Int.fdiv b.income 12 : ℤ) : ℚ) ∧
      l1 = l ∧ b1 = { b with payment_history := b.payment_history ++ [0] }) := by
  unfold Borrower.makePayment at h
  dsimp only at h
  split_ifs at h with h1 h2
  · split at h
    · exact absurd h (by simp)
    · left
      injection h with h3
      injection h3 with h4 h5
      injection h5 with h6 h7
      exact ⟨h4.symm, h1, h7.symm⟩
  · left
    injection h with h3
    injection h3 with h4 h5
    injection h5 with h6 h7
    exact ⟨h4.symm, h1, h7.symm⟩
  · right
    injection h with h3
    injection h3 with h4 h5
    injection h5 with h6 h7
    exact ⟨h4.symm, h1, h7.symm, h6.symm⟩

theorem loanMakePayment_cases {W O : Type} (b : Borrower W O) (l : LoanState)
    (res : Bool) (b2 : Borrower W O) (l2 : LoanState)
    (h : LoanState.makePayment b l = some (res, b2, l2)) :
    (l.is_active = false ∧ res = false ∧ l2 = l) ∨
    (l.is_active = true ∧ res = false ∧
      l2 = { l with missed_payments := l.missed_payments + 1 }) ∨
    (l.is_active = true ∧ res = true ∧
      l2.amount = l.amount ∧ l2.interest_rate = l.interest_rate ∧
      l2.term = l.term ∧
      l2.balance = l.balance - 2 * monthlyPayment l.amount l.interest_rate l.term ∧
      l2.is_active = (if l2.balance ≤ 0 then false else l.is_active)) := by
  unfold LoanState.makePayment at h
  split_ifs at h with hact
  · dsimp only at h
    split at h
    · exact absurd h (by simp)
    · rename_i b1 l1 heq
      rcases makePayment_cases b l true b1 l1 heq with ⟨_, hcond, hl1⟩ | ⟨hf, _⟩
      · right; right
        injection h with h3
        injection h3 with h4 h5
        injection h5 with h6 h7
        subst h4 h6 h7
        subst hl1
        exact ⟨hact, rfl, rfl, rfl, rfl, by dsimp; ring, rfl⟩
      · exact absurd hf (by simp)
    · rename_i b1 l1 heq
      rcases makePayment_cases b l false b1 l1 heq with ⟨ht, _⟩ | ⟨_, _, hl1, _⟩
      · exact absurd ht (by simp)
      · right; left
        injection h with h3
        injection h3 with h4 h5
        injection h5 with h6 h7
        subst h4 h6 h7
        subst hl1
        exact ⟨hact, rfl, rfl⟩
  · left
    injection h with h3
    injection h3 with h4 h5
    injection h5 with h6 h7
    subst h4 h6 h7
    exact ⟨by simpa using hact, rfl, rfl⟩

/-- C1 amended: when the full payment flow `Loan.make_payment` succeeds, the
balance decreases by exactly twice the monthly payment — the borrower callback
subtracts the payment and `Loan.make_payment` subtracts it again. The claim as
stated (a decrease of exactly one payment) fails, see the counterexample. -/
theorem loan_payment_deducts_twice :
    ∀ (W O : Type) (b : Borrower W O) (l : LoanState) (b2 : Borrower W O)
      (l2 : LoanState),
      LoanState.makePayment b l = some (true, b2, l2) →
      l2.balance = l.balance - 2 * monthlyPayment l.amount l.interest_rate l.term := by
  intro W O b l b2 l2 h
  rcases loanMakePayment_cases b l true b2 l2 h with
    ⟨_, hres, _⟩ | ⟨_, hres, _⟩ | ⟨_, _, _, _, _, hbal, _⟩
  · exact absurd hres (by simp)
  · exact absurd hres (by simp)
  · exact hbal

/-- Counterexample to C1 as stated: for the active loan `loanA` (balance 100,
monthly payment 200) the full flow succeeds and leaves balance `-300`, not
`100 - 200 = -100`: the balance drops by two payments, not one. -/
theorem loan_payment_single_deduction_cx :
    (LoanState.makePayment borrowerA loanA).map (fun r => (r.1, r.2.2.balance)) =
      some (true, -300) ∧
    loanA.balance - monthlyPayment loanA.amount loanA.interest_rate loanA.term = -100 ∧
    (-300 : ℚ) ≠ -100 := by
  refine ⟨?_, ?_, by norm_num⟩
  · norm_num [LoanState.makePayment, Borrower.makePayment, monthlyPayment, mkLoan,
      borrowerA, loanA, removeLoanById, improveCreditScore, Int.fdiv]
  · norm_num [monthlyPayment, mkLoan, loanA]

/-- Witness for the amended C1 at the concrete state of the counterexample. -/
theorem loan_payment_deducts_twice_witness :
    (⟨0, 0, 100, 12, 1, -300, 1, 0, false, -300⟩ : LoanState).balance =
      loanA.balance - 2 * monthlyPayment loanA.amount loanA.interest_rate loanA.term :=
  loan_payment_deducts_twice Unit Unit borrowerA loanA
    ⟨0, 610, 2400, 0, [], 1 / 2, 1 / 2, 2200, [], [1], (), (), (), ⟨50000, []⟩, 0, 0, []⟩
    ⟨0, 0, 100, 12, 1, -300, 1, 0, false, -300⟩
    (by norm_num [LoanState.makePayment, Borrower.makePayment, monthlyPayment, mkLoan,
      borrowerA, loanA, removeLoanById, improveCreditScore, Int.fdiv])

/-- C2 amended: whenever `Borrower.make_payment` returns (does not raise), it
returns success exactly when `income // 12` — Python integer floor division,
not the exact quotient `income / 12` — is at least the monthly payment; on
failure it appends 0 to the payment history, returns failure, and leaves the
loan and every other borrower field unchanged. -/
theorem borrower_payment_floor_division :
    ∀ (W O : Type) (b : Borrower W O) (l : LoanState) (res : Bool)
      (b1 : Borrower W O) (l1 : LoanState),
      b.makePayment l = some (res, b1, l1) →
      ((res = true ↔
          monthlyPayment l.amount l.interest_rate l.term ≤
            ((Int.fdiv b.income 12 : ℤ) : ℚ)) ∧
       (res = false →
          l1 = l ∧ b1 = { b with payment_history := b.payment_history ++ [0] })) := by
  intro W O b l res b1 l1 h
  rcases makePayment_cases b l res b1 l1 h with ⟨ht, hcond, _⟩ | ⟨hf, hcond, hl, hb⟩
  · subst ht
    exact ⟨⟨fun _ => hcond, fun _ => rfl⟩, by simp⟩
  · subst hf
    exact ⟨⟨by simp, fun hc => absurd hc hcond⟩, fun _ => ⟨hl, hb⟩⟩

/-- Counterexample to C2 as stated: `borrowerB` has income 13 and `loanB` has
monthly payment 21/20 = 1.05; the exact quotient satisfies
`13 / 12 = 1.0833... ≥ 1.05`, yet the payment fails because the code floors:
`13 // 12 = 1 < 1.05`. -/
theorem borrower_payment_exact_division_cx :
    (Borrower.makePayment borrowerB loanB).map (fun r => r.1) = some false ∧
    monthlyPayment loanB.amount loanB.interest_rate loanB.term ≤
      (borrowerB.income : ℚ) / 12 := by
  constructor
  · norm_num [Borrower.makePayment, monthlyPayment, borrowerB, loanB, mkLoan, Int.fdiv]
  · norm_num [monthlyPayment, borrowerB, loanB, mkLoan]

/-- Witness for the amended C2 at the concrete failing state. -/
theorem borrower_payment_floor_division_witness :
    ((false = true) ↔
        monthlyPayment loanB.amount loanB.interest_rate loanB.term ≤
          ((Int.fdiv borrowerB.income 12 : ℤ) : ℚ)) ∧
    (false = false →
        loanB = loanB ∧
        ({ borrowerB with payment_history := borrowerB.payment_history ++ [0] }
          : Borrower Unit Unit) =
          { borrowerB with payment_history := borrowerB.payment_history ++ [0] }) :=
  borrower_payment_floor_division Unit Unit borrowerB loanB false
    { borrowerB with payment_history := borrowerB.payment_history ++ [0] } loanB
    (by norm_num [Borrower.makePayment, monthlyPayment, borrowerB, loanB, mkLoan, Int.fdiv])

theorem stepOp_inv {W O : Type} (op : PayOp) (b : Borrower W O) (l : LoanState)
    (b2 : Borrower W O) (l2 : LoanState) (hamt : 0 < l.amount) (hinv : loanInv l)
    (h : stepOp op (b, l) = some (b2, l2)) : 0 < l2.amount ∧ loanInv l2 := by
  cases op with
  | loanReset =>
    simp only [stepOp, Option.some.injEq, Prod.mk.injEq] at h
    obtain ⟨_, hl⟩ := h
    subst hl
    refine ⟨hamt, ?_⟩
    unfold loanInv LoanState.reset
    dsimp
    constructor
    · intro hfalse; exact absurd hfalse (by simp)
    · intro hle; exact absurd hamt (by linarith)
  | recover =>
    simp only [stepOp, Option.some.injEq, Prod.mk.injEq] at h
    obtain ⟨_, hl⟩ := h
    subst hl
    exact ⟨hamt, hinv⟩
  | loanPay =>
    simp only [stepOp, Option.map_eq_some'] at h
    obtain ⟨⟨res, b', l'⟩, hm, heq⟩ := h
    obtain ⟨hb2, hl2⟩ : b' = b2 ∧ l' = l2 := by
      simpa using heq
    subst hb2 hl2
    rcases loanMakePayment_cases b l res b' l' hm with
      ⟨_, _, hl⟩ | ⟨hact, _, hl⟩ | ⟨hact, _, hamt2, _, _, _, hactive⟩
    · subst hl; exact ⟨hamt, hinv⟩
    · subst hl
      refine ⟨hamt, ?_⟩
      unfold loanInv at hinv ⊢
      dsimp
      exact hinv
    · refine ⟨hamt2 ▸ hamt, ?_⟩
      unfold loanInv
      rw [hactive, hact]
      by_cases hb : l'.balance ≤ 0
      · simp [hb]
      · simp [hb]

theorem runOps_inv {W O : Type} :
    ∀ (ops : List PayOp) (b : Borrower W O) (l : LoanState) (b2 : Borrower W O)
      (l2 : LoanState),
      0 < l.amount → loanInv l → runOps ops (b, l) = some (b2, l2) →
      0 < l2.amount ∧ loanInv l2 := by
  intro ops
  induction ops with
  | nil =>
    intro b l b2 l2 ha hi h
    simp only [runOps, Option.some.injEq, Prod.mk.injEq] at h
    obtain ⟨_, hl⟩ := h
    subst hl
    exact ⟨ha, hi⟩
  | cons op ops ih =>
    intro b l b2 l2 ha hi h
    simp only [runOps] at h
    rcases hstep : stepOp op (b, l) with _ | ⟨b', l'⟩
    · rw [hstep] at h; simp at h
    · rw [hstep] at h
      simp only [Option.some_bind] at h
      obtain ⟨ha', hi'⟩ := stepOp_inv op b l b' l' ha hi hstep
      exact ih b' l' b2 l2 ha' hi' h

/-- C3 amended: for every loan created with positive amount, the invariant
«inactive exactly when balance ≤ 0» holds after every sequence of the loan
lifecycle operations `Loan.make_payment`, `Loan.reset` and
`Borrower.recover_loan`. The claim as stated also admits direct
`Borrower.make_payment` calls, under which the invariant fails, see the
counterexample: the borrower callback never touches `is_active`. -/
theorem loan_active_invariant_ops :
    ∀ (W O : Type) (ops : List PayOp) (idv lender : ℕ) (amount interest_rate : ℚ)
      (term : ℕ) (b : Borrower W O) (b2 : Borrower W O) (l2 : LoanState),
      0 < amount →
      runOps ops (b, mkLoan idv lender amount interest_rate term) = some (b2, l2) →
      (l2.is_active = false ↔ l2.balance ≤ 0) := by
  intro W O ops idv lender amount interest_rate term b b2 l2 hamt h
  have hinv : loanInv (mkLoan idv lender amount interest_rate term) := by
    unfold loanInv mkLoan
    dsimp
    constructor
    · intro hfalse; exact absurd hfalse (by simp)
    · intro hle; exact absurd hamt (by linarith)
  exact (runOps_inv ops b (mkLoan idv lender amount interest_rate term) b2 l2
    hamt hinv h).2

/-- Counterexample to C3 as stated: on the freshly created `loanA` (amount
100 > 0, monthly payment 200), a direct `Borrower.make_payment` succeeds,
drives the balance to `-100 ≤ 0`, and leaves `is_active = true`. -/
theorem loan_active_invariant_cx :
    0 < loanA.amount ∧
    (Borrower.makePayment borrowerC loanA).map
        (fun r => (r.1, r.2.2.balance, r.2.2.is_active)) = some (true, -100, true) ∧
    ((-100 : ℚ) ≤ 0) := by
  refine ⟨by norm_num [loanA, mkLoan], ?_, by norm_num⟩
  norm_num [Borrower.makePayment, monthlyPayment, borrowerC, loanA, mkLoan,
    removeLoanById, improveCreditScore, Int.fdiv]

/-- Witness for the amended C3: one reset on a fresh positive loan keeps the
invariant. -/
theorem loan_active_invariant_ops_witness :
    (mkLoan 0 0 100 12 1).reset.is_active = false ↔
      (mkLoan 0 0 100 12 1).reset.balance ≤ 0 :=
  loan_active_invariant_ops Unit Unit [PayOp.loanReset] 0 0 100 12 1 borrowerD
    borrowerD (mkLoan 0 0 100 12 1).reset (by norm_num) rfl
